import Mathlib

/-!
Verification of the adaptive gitingest splitter
(`src/gitingest_splitter/adaptive_gitingest.py`).

The external `gitingest` CLI is a black box; a run of the splitter is
modelled relative to an oracle `counts : List String → List String → Nat`
giving, for each visited directory (identified by its path relative to the
run root, as a list of segments, `[]` for the root) and each exclude-pattern
list passed to the tool, the line count of the digest the tool would
produce.  The include patterns, the size cap and the branch selector are
fixed for the whole run (they sit in the configuration and are passed
through unchanged), so they are absorbed into the oracle.

`ingest_dir` returns the digest index (the list of records appended by the
run, in order) together with the trace of ingestion invocations (one entry
per `run_gitingest` call, in order; `isLocal` distinguishes the second,
local-files-only invocation of a split directory, mirroring the
`.tmp-local-` temporary-name prefix in the code).
-/

namespace GitingestSplitter

/-! ### Data model -/

/-- One entry of the digest index (the dict appended to `digests_index`). -/
structure DigestRecord where
  rel_dir : String
  digest_file : String
  line_count : Nat
  depth : Nat
  split : Bool
deriving Repr, DecidableEq

/-- One invocation of `run_gitingest`: the source directory (as a path
relative to the run root) and the exclude patterns passed to the tool.
`isLocal` marks the second, local-files-only invocation of a split
directory. -/
structure IngestCall where
  source_rel : List String
  excludes : List String
  isLocal : Bool
deriving Repr, DecidableEq

/-- The run configuration (read-only for the duration of a run). -/
structure Config where
  root_name : String
  max_lines : Nat
  max_depth : Nat
  exclude_patterns : List String
  include_patterns : List String
  max_size : Option Nat
  branch : Option String
deriving Repr

/-- A directory tree: the directory's name and its immediate
subdirectories, in the order `iterdir` yields them.  Files are not
modelled; their contribution to digests is captured by the line-count
oracle. -/
inductive DirTree where
  | node (name : String) (children : List DirTree)
deriving Repr

def DirTree.name : DirTree → String
  | .node n _ => n

def DirTree.children : DirTree → List DirTree
  | .node _ cs => cs

mutual

def DirTree.size : DirTree → Nat
  | .node _ cs => 1 + DirTree.sizeList cs

def DirTree.sizeList : List DirTree → Nat
  | [] => 0
  | c :: cs => DirTree.size c + DirTree.sizeList cs

end

theorem DirTree.size_eq (t : DirTree) : t.size = 1 + DirTree.sizeList t.children := by
  cases t with
  | node n cs => rfl

theorem DirTree.size_pos (t : DirTree) : 1 ≤ t.size := by
  cases t with
  | node n cs => simp only [DirTree.size]; omega

theorem DirTree.sizeList_cons (c : DirTree) (cs : List DirTree) :
    DirTree.sizeList (c :: cs) = c.size + DirTree.sizeList cs := rfl

theorem DirTree.sizeList_eq_sum (cs : List DirTree) :
    DirTree.sizeList cs = (cs.map DirTree.size).sum := by
  induction cs with
  | nil => rfl
  | cons c cs ih => simp [DirTree.sizeList, ih]

theorem DirTree.sizeList_perm {cs ds : List DirTree} (h : cs.Perm ds) :
    DirTree.sizeList cs = DirTree.sizeList ds := by
  rw [DirTree.sizeList_eq_sum, DirTree.sizeList_eq_sum]
  exact (h.map DirTree.size).sum_eq

theorem DirTree.size_le_of_mem {c : DirTree} :
    ∀ {cs : List DirTree}, c ∈ cs → c.size ≤ DirTree.sizeList cs := by
  intro cs
  induction cs with
  | nil => intro h; simp at h
  | cons d ds ih =>
    intro h
    rw [DirTree.sizeList_cons]
    rcases List.mem_cons.mp h with rfl | h
    · omega
    · have := ih h
      omega

/-! ### String splitting and joining

Python's `pattern.split('/')` and `'/'.join(parts)` (and `'-'.join`), as
structurally recursive functions so that they compute by kernel
reduction: a split on a one-character separator keeps empty segments and
yields `[""]` on the empty string, exactly like `str.split` with an
explicit separator. -/

def splitSeg (sep : Char) : List Char → List (List Char)
  | [] => [[]]
  | c :: rest =>
    match splitSeg sep rest with
    | [] => [[]]
    | seg :: segs => if c = sep then [] :: seg :: segs else (c :: seg) :: segs

/-- `s.split(sep)` for a one-character separator `sep`. -/
def splitChar (sep : Char) (s : String) : List String :=
  (splitSeg sep s.data).map (fun l => String.mk l)

/-- `sep.join(parts)`. -/
def joinSep (sep : String) : List String → String
  | [] => ""
  | [s] => s
  | s :: rest => s ++ sep ++ joinSep sep rest

/-! ### `extract_local_patterns` (the Pattern Localizer) -/

/-- The inner loop of `extract_local_patterns` for one pattern: walk over
the pattern's `/`-separated segments (`parts[i]` with the remaining
segments `parts[i+1:]` as `rest`); a segment equal to the current
directory's name or to `**`, provided it is not the last segment,
contributes `'/'.join(parts[i+1:])`, and for a `**` segment the original
pattern is additionally retained. -/
def local_candidates (pattern current_dir_name : String) : List String → List String
  | [] => []
  | part :: rest =>
    (if (part = current_dir_name ∨ part = "**") ∧ rest ≠ [] then
      (if part = "**" then [pattern] else []) ++ [joinSep "/" rest]
    else []) ++ local_candidates pattern current_dir_name rest

/-- `extract_local_patterns` from the source: patterns that should apply
when the named directory is ingested as its own root. -/
def extract_local_patterns : List String → String → List String
  | [], _ => []
  | pattern :: rest, current_dir_name =>
    local_candidates pattern current_dir_name (splitChar '/' pattern)
      ++ extract_local_patterns rest current_dir_name

/-! ### `fnmatch`-style glob matching and `dir_is_excluded` -/

/-- A UTF-8 continuation-style check used by the glob matcher is not
needed; this is the character-set matcher for a `[...]` glob class:
`a-b` ranges (a `-` that is first or last is literal), everything else
literal. -/
def matchSet (c : Char) : List Char → Bool
  | [] => false
  | a :: '-' :: b :: rest => (a ≤ c && c ≤ b) || matchSet c rest
  | a :: rest => (c = a) || matchSet c rest

/-- Scan the body of a `[...]` class, mirroring `fnmatch.translate`: a
leading `!` negates; a `]` that is the first set character (possibly after
`!`) is literal; if no closing `]` exists the `[` itself is literal
(`none`). Returns the raw set body (with the `!` still at its head) and
the remaining pattern. -/
def takeUntilRBrack : List Char → Option (List Char × List Char)
  | [] => none
  | c :: rest =>
    if c = ']' then some ([], rest)
    else
      match takeUntilRBrack rest with
      | none => none
      | some (stuff, rem) => some (c :: stuff, rem)

theorem takeUntilRBrack_length :
    ∀ {l stuff rem : List Char}, takeUntilRBrack l = some (stuff, rem) →
      rem.length < l.length := by
  intro l
  induction l with
  | nil => intro stuff rem h; simp [takeUntilRBrack] at h
  | cons c rest ih =>
    intro stuff rem h
    rw [takeUntilRBrack] at h
    by_cases hc : c = ']'
    · rw [if_pos hc] at h
      cases h
      simp
    · rw [if_neg hc] at h
      rcases hr : takeUntilRBrack rest with _ | ⟨s, r⟩ <;> rw [hr] at h
      · cases h
      · cases h
        have := ih hr
        simp
        omega

/-- Prepend the already-consumed set prefix to the scanned set body. -/
def scanBody (pre : List Char) (l : List Char) : Option (List Char × List Char) :=
  match takeUntilRBrack l with
  | none => none
  | some (stuff, rem) => some (pre ++ stuff, rem)

/-- The part of the class scan after a leading `!`: a `]` that comes right
after the `!` is a literal set member. -/
def scanAfterBang : List Char → Option (List Char × List Char)
  | [] => none
  | d :: rest2 =>
    if d = ']' then scanBody ['!', ']'] rest2 else scanBody ['!'] (d :: rest2)

def scanBracket : List Char → Option (List Char × List Char)
  | [] => none
  | c :: rest =>
    if c = '!' then scanAfterBang rest
    else if c = ']' then scanBody [']'] rest
    else scanBody [] (c :: rest)

theorem scanBody_length {pre l stuff rest : List Char}
    (h : scanBody pre l = some (stuff, rest)) : rest.length < l.length := by
  unfold scanBody at h
  rcases ht : takeUntilRBrack l with _ | ⟨s, r⟩ <;> rw [ht] at h
  · cases h
  · cases h
    exact takeUntilRBrack_length ht

theorem scanAfterBang_length {l stuff rest : List Char}
    (h : scanAfterBang l = some (stuff, rest)) : rest.length ≤ l.length := by
  match l with
  | [] => cases h
  | d :: rest2 =>
    rw [scanAfterBang] at h
    by_cases hd : d = ']'
    · rw [if_pos hd] at h
      have := scanBody_length h
      simp
      omega
    · rw [if_neg hd] at h
      have := scanBody_length h
      omega

theorem scanBracket_length :
    ∀ {l stuff rest : List Char}, scanBracket l = some (stuff, rest) →
      rest.length < l.length := by
  intro l stuff rest h
  match l with
  | [] => cases h
  | c :: r =>
    rw [scanBracket] at h
    by_cases hc : c = '!'
    · rw [if_pos hc] at h
      have := scanAfterBang_length h
      simp
      omega
    · rw [if_neg hc] at h
      by_cases hc2 : c = ']'
      · rw [if_pos hc2] at h
        have := scanBody_length h
        simp
        omega
      · rw [if_neg hc2] at h
        exact scanBody_length h

/-- Glob matching as in Python's `fnmatch` (POSIX case rules): `*` matches
any character sequence, `?` any single character, `[...]`/`[!...]`
character classes, everything else literally.  The recursion is driven by
a fuel parameter so the function computes by kernel reduction; every
recursive step strictly decreases `ps.length + cs.length`
(`globMatchF_congr` below shows any fuel above that bound gives the same
answer).  First list argument (after the fuel) is the pattern, second the
name. -/
def globMatchF : Nat → List Char → List Char → Bool
  | 0, _, _ => false
  | f + 1, ps, cs =>
    match ps with
    | [] => cs.isEmpty
    | p :: ps' =>
      if p = '*' then
        globMatchF f ps' cs ||
          (match cs with
           | [] => false
           | _ :: cs' => globMatchF f (p :: ps') cs')
      else if p = '?' then
        (match cs with
         | [] => false
         | _ :: cs' => globMatchF f ps' cs')
      else if p = '[' then
        (match scanBracket ps' with
         | none =>
           (match cs with
            | [] => false
            | c :: cs' => (c = '[') && globMatchF f ps' cs')
         | some (stuff, rest) =>
           (match cs with
            | [] => false
            | c :: cs' =>
              (match stuff with
               | '!' :: set => !(matchSet c set)
               | set => matchSet c set) && globMatchF f rest cs'))
      else
        (match cs with
         | [] => false
         | c :: cs' => (c = p) && globMatchF f ps' cs')

theorem globMatchF_succ_nil (f : Nat) (cs : List Char) :
    globMatchF (f + 1) [] cs = cs.isEmpty := rfl

theorem globMatchF_succ_cons (f : Nat) (p : Char) (ps' cs : List Char) :
    globMatchF (f + 1) (p :: ps') cs =
      (if p = '*' then
        globMatchF f ps' cs ||
          (match cs with
           | [] => false
           | _ :: cs' => globMatchF f (p :: ps') cs')
      else if p = '?' then
        (match cs with
         | [] => false
         | _ :: cs' => globMatchF f ps' cs')
      else if p = '[' then
        (match scanBracket ps' with
         | none =>
           (match cs with
            | [] => false
            | c :: cs' => (c = '[') && globMatchF f ps' cs')
         | some (stuff, rest) =>
           (match cs with
            | [] => false
            | c :: cs' =>
              (match stuff with
               | '!' :: set => !(matchSet c set)
               | set => matchSet c set) && globMatchF f rest cs'))
      else
        (match cs with
         | [] => false
         | c :: cs' => (c = p) && globMatchF f ps' cs')) := rfl

/-- The fuel in `globMatchF` is irrelevant as soon as it exceeds
`ps.length + cs.length`: every recursive step strictly decreases that
quantity (for the `[...]` step via `scanBracket_length`). -/
theorem globMatchF_congr :
    ∀ (f : Nat) (ps cs : List Char) (g : Nat),
      ps.length + cs.length < f → ps.length + cs.length < g →
      globMatchF f ps cs = globMatchF g ps cs := by
  intro f
  induction f with
  | zero => intro ps cs g hf; omega
  | succ f ih =>
    intro ps cs g hf hg
    match g with
    | 0 => omega
    | g + 1 =>
      match ps with
      | [] => rw [globMatchF_succ_nil, globMatchF_succ_nil]
      | p :: ps' =>
        rw [globMatchF_succ_cons, globMatchF_succ_cons]
        simp only [List.length_cons] at hf hg
        by_cases hp1 : p = '*'
        · rw [if_pos hp1, if_pos hp1]
          rw [ih ps' cs g (by omega) (by omega)]
          match cs with
          | [] => rfl
          | c :: cs' =>
            simp only [List.length_cons] at hf hg
            simp only [ih (p :: ps') cs' g (by simp; omega) (by simp; omega)]
        · rw [if_neg hp1, if_neg hp1]
          by_cases hp2 : p = '?'
          · rw [if_pos hp2, if_pos hp2]
            match cs with
            | [] => rfl
            | c :: cs' =>
              simp only [List.length_cons] at hf hg
              simp only [ih ps' cs' g (by omega) (by omega)]
          · rw [if_neg hp2, if_neg hp2]
            by_cases hp3 : p = '['
            · rw [if_pos hp3, if_pos hp3]
              rcases hs : scanBracket ps' with _ | ⟨stuff, rest⟩
              · match cs with
                | [] => rfl
                | c :: cs' =>
                  simp only [List.length_cons] at hf hg
                  simp only [ih ps' cs' g (by omega) (by omega)]
              · match cs with
                | [] => rfl
                | c :: cs' =>
                  simp only [List.length_cons] at hf hg
                  have hrest := scanBracket_length hs
                  simp only [ih rest cs' g (by omega) (by omega)]
            · rw [if_neg hp3, if_neg hp3]
              match cs with
              | [] => rfl
              | c :: cs' =>
                simp only [List.length_cons] at hf hg
                simp only [ih ps' cs' g (by omega) (by omega)]

def globMatch (ps cs : List Char) : Bool :=
  globMatchF (ps.length + cs.length + 1) ps cs

/-- `fnmatch.fnmatch(name, pat)`. -/
def fnmatch (name pat : String) : Bool :=
  globMatch pat.data name.data

/-- `dir_is_excluded` from the source: a directory is skipped when its
name, or its name with a trailing `/`, glob-matches one of the exclude
patterns. -/
def dir_is_excluded (dirname : String) (exclude_patterns : List String) : Bool :=
  exclude_patterns.any (fun pat => fnmatch dirname pat || fnmatch (dirname ++ "/") pat)

/-! ### `digest_filename` and relative-path rendering -/

/-- `digest_filename` from the source.  A relative directory is a list of
path segments; `[]` stands for `Path(".")` (the run root). -/
def digest_filename (root_name : String) (rel_dir : List String) : String :=
  if rel_dir = [] then "digest-" ++ root_name ++ ".txt"
  else
    "digest-" ++ root_name ++ "-"
      ++ joinSep "-" (rel_dir.filter (fun p => ¬(p = "." ∨ p = ""))) ++ ".txt"

/-- `str(rel_dir)` with the `"."` sentinel for the root, as stored in the
`rel_dir` field of a digest record. -/
def relStr : List String → String
  | [] => "."
  | segs => joinSep "/" segs

/-! ### `count_lines`

`count_lines` opens the digest file as text with `encoding="utf-8",
errors="ignore"` and counts the lines yielded by the file iterator.  A
file is a byte list; decoding skips invalid byte sequences (dropping the
maximal valid prefix of an attempted sequence, as CPython's `ignore`
handler does) and yields Unicode code points; text-mode line iteration
uses universal newlines (`\n`, `\r`, `\r\n` each terminate a line) and
yields a final unterminated fragment as one more line. -/

/-- Is `b` a UTF-8 continuation byte (`0x80..0xBF`)? -/
def isCont (b : Nat) : Bool :=
  decide (0x80 ≤ b ∧ b ≤ 0xBF)

/-- Classify a byte treated as the start of a UTF-8 sequence: either an
immediately complete ASCII code point, or a pending multi-byte state
`(need, acc, lo, hi)` — `need` continuation bytes still expected, `acc`
the accumulated high bits, and `[lo, hi]` the allowed range for the next
byte (the restricted first-continuation ranges exclude overlong
encodings, surrogates via `0xED`, and code points above `U+10FFFF` via
`0xF4`).  Invalid start bytes give neither. -/
def startByte (b : Nat) : Option (Nat × Nat × Nat × Nat) × Option Nat :=
  if b ≤ 0x7F then (none, some b)
  else if 0xC2 ≤ b ∧ b ≤ 0xDF then (some (1, b - 0xC0, 0x80, 0xBF), none)
  else if 0xE0 ≤ b ∧ b ≤ 0xEF then
    (some (2, b - 0xE0, if b = 0xE0 then 0xA0 else 0x80,
      if b = 0xED then 0x9F else 0xBF), none)
  else if 0xF0 ≤ b ∧ b ≤ 0xF4 then
    (some (3, b - 0xF0, if b = 0xF0 then 0x90 else 0x80,
      if b = 0xF4 then 0x8F else 0xBF), none)
  else (none, none)

/-- Decode UTF-8 with `errors="ignore"` as an incremental state machine:
invalid bytes and sequences are skipped (a byte that cannot continue a
pending sequence drops that sequence's maximal valid prefix and is
re-examined as a start byte, as CPython's `ignore` handler does), valid
sequences yield their code point, and a truncated sequence at the end of
input is dropped. -/
def utf8DecodeAux : Option (Nat × Nat × Nat × Nat) → List Nat → List Nat
  | _, [] => []
  | none, b :: bs =>
    (match startByte b with
     | (st, some c) => c :: utf8DecodeAux st bs
     | (st, none) => utf8DecodeAux st bs)
  | some (need, acc, lo, hi), b :: bs =>
    if lo ≤ b ∧ b ≤ hi then
      (if need ≤ 1 then (acc * 0x40 + (b - 0x80)) :: utf8DecodeAux none bs
       else utf8DecodeAux (some (need - 1, acc * 0x40 + (b - 0x80), 0x80, 0xBF)) bs)
    else
      (match startByte b with
       | (st, some c) => c :: utf8DecodeAux st bs
       | (st, none) => utf8DecodeAux st bs)

def utf8Decode (content : List Nat) : List Nat :=
  utf8DecodeAux none content

/-- The number of lines Python's text-mode file iterator yields for the
decoded code-point sequence: each universal-newline terminator (`\n`,
`\r`, or the pair `\r\n`) ends a line, and a nonempty final fragment
without a terminator also counts as one line (a nonempty text always has
at least one line, hence the singleton case). -/
def pyLineCount : List Nat → Nat
  | [] => 0
  | [_] => 1
  | c :: d :: rest =>
    if c = 13 then
      (if d = 10 then 1 + pyLineCount rest else 1 + pyLineCount (d :: rest))
    else if c = 10 then 1 + pyLineCount (d :: rest)
    else pyLineCount (d :: rest)

/-- `count_lines` from the source, on a byte-list model of the digest
file. -/
def count_lines (content : List Nat) : Nat :=
  pyLineCount (utf8Decode content)

/-- The number of line terminators (`\n`, `\r`, `\r\n`) in a code-point
sequence, i.e. the number of line-terminated records. -/
def terminatorCount : List Nat → Nat
  | [] => 0
  | [c] => if c = 13 ∨ c = 10 then 1 else 0
  | c :: d :: rest =>
    if c = 13 then
      (if d = 10 then 1 + terminatorCount rest else 1 + terminatorCount (d :: rest))
    else if c = 10 then 1 + terminatorCount (d :: rest)
    else terminatorCount (d :: rest)

/-- Does the code-point sequence end in a nonempty fragment that is not
closed by a line terminator? -/
def endsUnterminated (l : List Nat) : Bool :=
  match l.getLast? with
  | none => false
  | some c => decide ¬(c = 13 ∨ c = 10)

theorem endsUnterminated_cons_cons (c d : Nat) (rest : List Nat) :
    endsUnterminated (c :: d :: rest) = endsUnterminated (d :: rest) := by
  unfold endsUnterminated
  rw [List.getLast?_cons_cons]

/-- The file iterator's line count is the number of line-terminated
records plus one for a nonempty unterminated final fragment. -/
theorem pyLineCount_eq_terminators (l : List Nat) :
    pyLineCount l = terminatorCount l + (if endsUnterminated l = true then 1 else 0) := by
  have H : ∀ (n : Nat) (l : List Nat), l.length ≤ n →
      pyLineCount l = terminatorCount l + (if endsUnterminated l = true then 1 else 0) := by
    intro n
    induction n with
    | zero =>
      intro l hl
      have hnil : l = [] := List.length_eq_zero.mp (Nat.le_zero.mp hl)
      subst hnil; rfl
    | succ n ih =>
      intro l hl
      match l with
      | [] => rfl
      | [c] =>
        rw [pyLineCount, terminatorCount]
        unfold endsUnterminated
        rw [List.getLast?_singleton]
        by_cases hc : c = 13 ∨ c = 10
        · rw [if_pos hc]; simp [hc]
        · rw [if_neg hc]; simp [hc]
      | c :: d :: rest =>
        simp only [List.length_cons] at hl
        rw [pyLineCount, terminatorCount, endsUnterminated_cons_cons]
        by_cases hc13 : c = 13
        · rw [if_pos hc13, if_pos hc13]
          by_cases hd10 : d = 10
          · rw [if_pos hd10, if_pos hd10]
            subst hd10
            have hrec := ih rest (by omega)
            cases rest with
            | nil => rfl
            | cons e es =>
              rw [endsUnterminated_cons_cons]
              omega
          · rw [if_neg hd10, if_neg hd10]
            have hrec := ih (d :: rest) (by simp; omega)
            omega
        · rw [if_neg hc13, if_neg hc13]
          have hrec := ih (d :: rest) (by simp; omega)
          by_cases hc10 : c = 10
          · rw [if_pos hc10, if_pos hc10]
            omega
          · rw [if_neg hc10, if_neg hc10]
            omega
  exact H l.length l (Nat.le_refl _)

/-! ### The Recursive Splitter (`ingest_dir`)

`ingest_dir` mirrors the per-directory procedure of the source: ingest
the whole directory (one oracle consultation with the global excludes);
keep it whole when the count is at most `max_lines` or the depth has
reached `max_depth`; otherwise discard it, produce the local-files-only
digest under `local_excludes`, record it with `split=true` and recurse
into the name-sorted immediate children, skipping excluded ones
(`ingest_children` is the `for child in sorted(child_dirs, ...)` loop).
It returns the records appended to `digests_index` together with the
trace of `run_gitingest` invocations, both in order. -/

/-- The `local_excludes` list built before a split: the global excludes,
then the localized patterns for this directory's name, then one
`<child>/**` pattern per immediate child directory. -/
def local_excludes (cfg : Config) (t : DirTree) : List String :=
  cfg.exclude_patterns
    ++ extract_local_patterns cfg.exclude_patterns t.name
    ++ t.children.map (fun c => c.name ++ "/**")

/-- `sorted(child_dirs, key=lambda p: p.name)`: a stable sort by name. -/
def sortedChildren (t : DirTree) : List DirTree :=
  List.insertionSort (fun a b : DirTree => a.name ≤ b.name) t.children

theorem DirTree.sizeList_sortedChildren (t : DirTree) :
    DirTree.sizeList (sortedChildren t) = DirTree.sizeList t.children :=
  DirTree.sizeList_perm (List.perm_insertionSort _ _)

mutual

def ingest_dir (counts : List String → List String → Nat) (cfg : Config)
    (t : DirTree) (rel : List String) (depth : Nat) :
    List DigestRecord × List IngestCall :=
  let total_lines := counts rel cfg.exclude_patterns
  if total_lines ≤ cfg.max_lines ∨ cfg.max_depth ≤ depth then
    ([⟨relStr rel, digest_filename cfg.root_name rel, total_lines, depth, false⟩],
     [⟨rel, cfg.exclude_patterns, false⟩])
  else
    let local_lines := counts rel (local_excludes cfg t)
    let rest := ingest_children counts cfg (sortedChildren t) rel depth
    (⟨relStr rel, digest_filename cfg.root_name rel, local_lines, depth, true⟩ :: rest.1,
     ⟨rel, cfg.exclude_patterns, false⟩ :: ⟨rel, local_excludes cfg t, true⟩ :: rest.2)
termination_by 2 * t.size
decreasing_by
  rw [DirTree.sizeList_sortedChildren, DirTree.size_eq]
  omega

def ingest_children (counts : List String → List String → Nat) (cfg : Config)
    (cs : List DirTree) (rel : List String) (depth : Nat) :
    List DigestRecord × List IngestCall :=
  match cs with
  | [] => ([], [])
  | c :: rest =>
    if dir_is_excluded c.name cfg.exclude_patterns then
      ingest_children counts cfg rest rel depth
    else
      let r := ingest_dir counts cfg c (rel ++ [c.name]) (depth + 1)
      let rs := ingest_children counts cfg rest rel depth
      (r.1 ++ rs.1, r.2 ++ rs.2)
termination_by 2 * DirTree.sizeList cs + 1
decreasing_by
  all_goals (rw [DirTree.sizeList_cons]; have := DirTree.size_pos c; omega)

end

theorem ingest_dir_keep (counts : List String → List String → Nat) (cfg : Config)
    (t : DirTree) (rel : List String) (depth : Nat)
    (h : counts rel cfg.exclude_patterns ≤ cfg.max_lines ∨ cfg.max_depth ≤ depth) :
    ingest_dir counts cfg t rel depth =
      ([⟨relStr rel, digest_filename cfg.root_name rel,
          counts rel cfg.exclude_patterns, depth, false⟩],
       [⟨rel, cfg.exclude_patterns, false⟩]) := by
  rw [ingest_dir]
  simp only [if_pos h]

theorem ingest_dir_split (counts : List String → List String → Nat) (cfg : Config)
    (t : DirTree) (rel : List String) (depth : Nat)
    (h : ¬(counts rel cfg.exclude_patterns ≤ cfg.max_lines ∨ cfg.max_depth ≤ depth)) :
    ingest_dir counts cfg t rel depth =
      (⟨relStr rel, digest_filename cfg.root_name rel,
          counts rel (local_excludes cfg t), depth, true⟩
          :: (ingest_children counts cfg (sortedChildren t) rel depth).1,
       ⟨rel, cfg.exclude_patterns, false⟩ :: ⟨rel, local_excludes cfg t, true⟩
          :: (ingest_children counts cfg (sortedChildren t) rel depth).2) := by
  rw [ingest_dir]
  simp only [if_neg h]

theorem ingest_children_nil (counts : List String → List String → Nat) (cfg : Config)
    (rel : List String) (depth : Nat) :
    ingest_children counts cfg [] rel depth = ([], []) := by
  rw [ingest_children]

theorem ingest_children_cons (counts : List String → List String → Nat) (cfg : Config)
    (c : DirTree) (rest : List DirTree) (rel : List String) (depth : Nat) :
    ingest_children counts cfg (c :: rest) rel depth =
      if dir_is_excluded c.name cfg.exclude_patterns then
        ingest_children counts cfg rest rel depth
      else
        ((ingest_dir counts cfg c (rel ++ [c.name]) (depth + 1)).1
            ++ (ingest_children counts cfg rest rel depth).1,
         (ingest_dir counts cfg c (rel ++ [c.name]) (depth + 1)).2
            ++ (ingest_children counts cfg rest rel depth).2) := by
  rw [ingest_children]

theorem ingest_children_cons_skip (counts : List String → List String → Nat) (cfg : Config)
    (c : DirTree) (rest : List DirTree) (rel : List String) (depth : Nat)
    (h : dir_is_excluded c.name cfg.exclude_patterns = true) :
    ingest_children counts cfg (c :: rest) rel depth =
      ingest_children counts cfg rest rel depth := by
  rw [ingest_children_cons, if_pos h]

theorem ingest_children_cons_go (counts : List String → List String → Nat) (cfg : Config)
    (c : DirTree) (rest : List DirTree) (rel : List String) (depth : Nat)
    (h : dir_is_excluded c.name cfg.exclude_patterns = false) :
    ingest_children counts cfg (c :: rest) rel depth =
      ((ingest_dir counts cfg c (rel ++ [c.name]) (depth + 1)).1
          ++ (ingest_children counts cfg rest rel depth).1,
       (ingest_dir counts cfg c (rel ++ [c.name]) (depth + 1)).2
          ++ (ingest_children counts cfg rest rel depth).2) := by
  rw [ingest_children_cons, if_neg (by simp [h])]

/-! ### Structural lemmas about the traversal -/

theorem DirTree.strongInduction {P : DirTree → Prop}
    (h : ∀ (nm : String) (cs : List DirTree), (∀ c ∈ cs, P c) → P (DirTree.node nm cs)) :
    ∀ t, P t
  | .node nm cs => h nm cs (fun c hc => DirTree.strongInduction h c)
termination_by t => t.size
decreasing_by
  have hle := DirTree.size_le_of_mem hc
  have hsz : DirTree.size (DirTree.node nm cs) = 1 + DirTree.sizeList cs := rfl
  omega

theorem mem_sortedChildren {c : DirTree} {t : DirTree} :
    c ∈ sortedChildren t ↔ c ∈ t.children := by
  unfold sortedChildren
  exact List.mem_insertionSort _

/-- The child loop produces, per child in order, nothing for an excluded
child and the child's full result otherwise. -/
theorem ingest_children_eq_flatten (counts : List String → List String → Nat)
    (cfg : Config) (cs : List DirTree) (rel : List String) (depth : Nat) :
    ingest_children counts cfg cs rel depth =
      ((cs.map (fun c => if dir_is_excluded c.name cfg.exclude_patterns = true then []
          else (ingest_dir counts cfg c (rel ++ [c.name]) (depth + 1)).1)).flatten,
       (cs.map (fun c => if dir_is_excluded c.name cfg.exclude_patterns = true then []
          else (ingest_dir counts cfg c (rel ++ [c.name]) (depth + 1)).2)).flatten) := by
  induction cs with
  | nil => rw [ingest_children_nil]; rfl
  | cons c rest ih =>
    rw [ingest_children_cons]
    by_cases hex : dir_is_excluded c.name cfg.exclude_patterns = true
    · rw [if_pos hex]
      simp only [List.map_cons, List.flatten_cons, if_pos hex, List.nil_append]
      exact ih
    · rw [if_neg hex]
      simp only [List.map_cons, List.flatten_cons, if_neg hex, ih]

theorem ingest_children_mem_records
    {counts : List String → List String → Nat} {cfg : Config}
    {cs : List DirTree} {rel : List String} {depth : Nat} {r : DigestRecord}
    (hr : r ∈ (ingest_children counts cfg cs rel depth).1) :
    ∃ c ∈ cs, dir_is_excluded c.name cfg.exclude_patterns = false ∧
      r ∈ (ingest_dir counts cfg c (rel ++ [c.name]) (depth + 1)).1 := by
  rw [ingest_children_eq_flatten] at hr
  simp only [List.mem_flatten, List.mem_map] at hr
  obtain ⟨l, ⟨c, hc, hl⟩, hrl⟩ := hr
  subst hl
  by_cases hex : dir_is_excluded c.name cfg.exclude_patterns = true
  · rw [if_pos hex] at hrl
    simp at hrl
  · rw [if_neg hex] at hrl
    exact ⟨c, hc, Bool.not_eq_true _ ▸ Bool.of_not_eq_true hex, hrl⟩

/-- Every visited directory appends exactly one record for itself; the
first record of a call is the current directory's, with its depth and
with `split` set exactly when the splitter took the split path. -/
theorem ingest_dir_head (counts : List String → List String → Nat) (cfg : Config)
    (t : DirTree) (rel : List String) (depth : Nat) :
    ∃ rest, (ingest_dir counts cfg t rel depth).1 =
      ⟨relStr rel, digest_filename cfg.root_name rel,
        (if counts rel cfg.exclude_patterns ≤ cfg.max_lines ∨ cfg.max_depth ≤ depth
          then counts rel cfg.exclude_patterns else counts rel (local_excludes cfg t)),
        depth,
        !decide (counts rel cfg.exclude_patterns ≤ cfg.max_lines ∨ cfg.max_depth ≤ depth)⟩
        :: rest := by
  by_cases hk : counts rel cfg.exclude_patterns ≤ cfg.max_lines ∨ cfg.max_depth ≤ depth
  · exact ⟨[], by rw [ingest_dir_keep _ _ _ _ _ hk]; simp [hk]⟩
  · refine ⟨(ingest_children counts cfg (sortedChildren t) rel depth).1, ?_⟩
    rw [ingest_dir_split _ _ _ _ _ hk]
    simp [hk]

theorem ingest_dir_records_ne_nil (counts : List String → List String → Nat)
    (cfg : Config) (t : DirTree) (rel : List String) (depth : Nat) :
    (ingest_dir counts cfg t rel depth).1 ≠ [] := by
  obtain ⟨rest, h⟩ := ingest_dir_head counts cfg t rel depth
  rw [h]
  simp

/-- Records produced by a call sit at the call's depth or deeper, and a
record at `max_depth` or beyond always has `split = false`. -/
theorem ingest_dir_records_depth (counts : List String → List String → Nat) (cfg : Config) :
    ∀ (t : DirTree) (rel : List String) (depth : Nat),
      ∀ r ∈ (ingest_dir counts cfg t rel depth).1,
        depth ≤ r.depth ∧ (cfg.max_depth ≤ r.depth → r.split = false) := by
  intro t
  induction t using DirTree.strongInduction with
  | h nm cs ih =>
    intro rel depth r hr
    by_cases hk : counts rel cfg.exclude_patterns ≤ cfg.max_lines ∨ cfg.max_depth ≤ depth
    · rw [ingest_dir_keep _ _ _ _ _ hk] at hr
      simp only [List.mem_singleton] at hr
      subst hr
      exact ⟨Nat.le_refl _, fun _ => rfl⟩
    · rw [ingest_dir_split _ _ _ _ _ hk] at hr
      rcases List.mem_cons.mp hr with rfl | hr
      · exact ⟨Nat.le_refl _, fun hmd => absurd (Or.inr hmd) hk⟩
      · obtain ⟨c, hc, _, hrc⟩ := ingest_children_mem_records hr
        have hc' : c ∈ cs := mem_sortedChildren.mp hc
        obtain ⟨h1, h2⟩ := ih c hc' (rel ++ [c.name]) (depth + 1) r hrc
        exact ⟨by omega, h2⟩

/-- Helper for `ingest_dir_records_match_visits`: the correspondence over
a child list, given it for every child. -/
theorem ingest_children_records_match_visits
    (counts : List String → List String → Nat) (cfg : Config) :
    ∀ (cs : List DirTree) (rel : List String) (depth : Nat),
      (∀ c ∈ cs, ∀ (rel' : List String) (d' : Nat),
        ((ingest_dir counts cfg c rel' d').1.map (fun r => r.rel_dir)) =
          (((ingest_dir counts cfg c rel' d').2.filter (fun call => !call.isLocal)).map
            (fun call => relStr call.source_rel))) →
      ((ingest_children counts cfg cs rel depth).1.map (fun r => r.rel_dir)) =
        (((ingest_children counts cfg cs rel depth).2.filter
            (fun call => !call.isLocal)).map (fun call => relStr call.source_rel)) := by
  intro cs
  induction cs with
  | nil =>
    intro rel depth _
    rw [ingest_children_nil]
    rfl
  | cons c rest ihr =>
    intro rel depth hall
    rw [ingest_children_cons]
    by_cases hex : dir_is_excluded c.name cfg.exclude_patterns = true
    · rw [if_pos hex]
      exact ihr rel depth (fun c' h' => hall c' (List.mem_cons_of_mem _ h'))
    · rw [if_neg hex]
      simp only [List.map_append, List.filter_append]
      rw [hall c (List.mem_cons_self c rest) (rel ++ [c.name]) (depth + 1),
        ihr rel depth (fun c' h' => hall c' (List.mem_cons_of_mem _ h'))]

/-- One record per visited directory, in visiting order: the `rel_dir`
fields of the records are exactly the source directories of the
non-local ingestion calls (one whole-directory call starts every
visit). -/
theorem ingest_dir_records_match_visits
    (counts : List String → List String → Nat) (cfg : Config) :
    ∀ (t : DirTree) (rel : List String) (depth : Nat),
      ((ingest_dir counts cfg t rel depth).1.map (fun r => r.rel_dir)) =
        (((ingest_dir counts cfg t rel depth).2.filter (fun call => !call.isLocal)).map
          (fun call => relStr call.source_rel)) := by
  intro t
  induction t using DirTree.strongInduction with
  | h nm cs ih =>
    intro rel depth
    by_cases hk : counts rel cfg.exclude_patterns ≤ cfg.max_lines ∨ cfg.max_depth ≤ depth
    · rw [ingest_dir_keep _ _ _ _ _ hk]
      rfl
    · rw [ingest_dir_split _ _ _ _ _ hk]
      simp only [List.map_cons, List.filter_cons]
      norm_num
      exact ingest_children_records_match_visits counts cfg _ rel depth
        (fun c hc => ih c (mem_sortedChildren.mp hc))

/-! ### Error propagation and `main`

`run_gitingest` can raise `FileNotFoundError` (the executable cannot be
located when spawning the subprocess) or `CalledProcessError` (the tool
exited with a non-zero status, surfaced by `check=True`).  Both
propagate out of `ingest_dir` — the recursion installs no handler — and
`main` catches them: `FileNotFoundError` prints install guidance and
exits with code 1; `CalledProcessError e` prints the error and exits
with `e.returncode`.  Only on success is the index file written.  The
fallible run is modelled with an oracle returning `Except`: the first
failing ingestion call aborts the whole traversal. -/

inductive IngestError where
  | fileNotFound
  | calledProcess (returncode : Int)
deriving Repr, DecidableEq

mutual

def ingest_dirE (counts : List String → List String → Except IngestError Nat)
    (cfg : Config) (t : DirTree) (rel : List String) (depth : Nat) :
    Except IngestError (List DigestRecord) :=
  match counts rel cfg.exclude_patterns with
  | .error e => .error e
  | .ok total_lines =>
    if total_lines ≤ cfg.max_lines ∨ cfg.max_depth ≤ depth then
      .ok [⟨relStr rel, digest_filename cfg.root_name rel, total_lines, depth, false⟩]
    else
      match counts rel (local_excludes cfg t) with
      | .error e => .error e
      | .ok local_lines =>
        match ingest_childrenE counts cfg (sortedChildren t) rel depth with
        | .error e => .error e
        | .ok rest =>
          .ok (⟨relStr rel, digest_filename cfg.root_name rel, local_lines, depth, true⟩
            :: rest)
termination_by 2 * t.size
decreasing_by
  rw [DirTree.sizeList_sortedChildren, DirTree.size_eq]
  omega

def ingest_childrenE (counts : List String → List String → Except IngestError Nat)
    (cfg : Config) (cs : List DirTree) (rel : List String) (depth : Nat) :
    Except IngestError (List DigestRecord) :=
  match cs with
  | [] => .ok []
  | c :: rest =>
    if dir_is_excluded c.name cfg.exclude_patterns then
      ingest_childrenE counts cfg rest rel depth
    else
      match ingest_dirE counts cfg c (rel ++ [c.name]) (depth + 1) with
      | .error e => .error e
      | .ok rs =>
        match ingest_childrenE counts cfg rest rel depth with
        | .error e => .error e
        | .ok rss => .ok (rs ++ rss)
termination_by 2 * DirTree.sizeList cs + 1
decreasing_by
  all_goals (rw [DirTree.sizeList_cons]; have := DirTree.size_pos c; omega)

end

/-- What `main` reports on a failed run. -/
inductive RunReport where
  | installHint
  | gitingestError (returncode : Int)
deriving Repr, DecidableEq

/-- The observable outcome of `main` after the ingestion phase:
`exitCode = none` means a normal exit, `some c` an abort via
`sys.exit(c)`; `indexWritten` records whether `write_index_file` ran. -/
structure RunOutcome where
  exitCode : Option Int
  indexWritten : Bool
  report : Option RunReport
deriving Repr, DecidableEq

/-- The `try/except` dispatch of `main` around `ingest_dir` (the root is
ingested at `rel=[]`, depth 0), followed by `write_index_file` on
success. -/
def mainModel (counts : List String → List String → Except IngestError Nat)
    (cfg : Config) (t : DirTree) : RunOutcome :=
  match ingest_dirE counts cfg t [] 0 with
  | .error .fileNotFound => ⟨some 1, false, some .installHint⟩
  | .error (.calledProcess rc) => ⟨some rc, false, some (.gitingestError rc)⟩
  | .ok _ => ⟨none, true, none⟩

theorem ingest_dirE_keep (counts : List String → List String → Except IngestError Nat)
    (cfg : Config) (t : DirTree) (rel : List String) (depth : Nat) (n : Nat)
    (hok : counts rel cfg.exclude_patterns = .ok n)
    (h : n ≤ cfg.max_lines ∨ cfg.max_depth ≤ depth) :
    ingest_dirE counts cfg t rel depth =
      .ok [⟨relStr rel, digest_filename cfg.root_name rel, n, depth, false⟩] := by
  rw [ingest_dirE, hok]
  simp only [if_pos h]

theorem ingest_dirE_oracle_error (counts : List String → List String → Except IngestError Nat)
    (cfg : Config) (t : DirTree) (rel : List String) (depth : Nat) (e : IngestError)
    (herr : counts rel cfg.exclude_patterns = .error e) :
    ingest_dirE counts cfg t rel depth = .error e := by
  rw [ingest_dirE, herr]

/-- Mutual-recursion helper: any error surfacing from the child loop
came from some oracle call. -/
theorem ingest_childrenE_error_source
    (counts : List String → List String → Except IngestError Nat) (cfg : Config) :
    ∀ (cs : List DirTree) (rel : List String) (depth : Nat) (e : IngestError),
      (∀ c ∈ cs, ∀ (rel' : List String) (d' : Nat),
        ingest_dirE counts cfg c rel' d' = .error e →
        ∃ rel'' ex, counts rel'' ex = .error e) →
      ingest_childrenE counts cfg cs rel depth = .error e →
      ∃ rel'' ex, counts rel'' ex = .error e := by
  intro cs
  induction cs with
  | nil =>
    intro rel depth e _ h
    rw [ingest_childrenE] at h
    cases h
  | cons c rest ihr =>
    intro rel depth e hall h
    rw [ingest_childrenE] at h
    by_cases hex : dir_is_excluded c.name cfg.exclude_patterns = true
    · rw [if_pos hex] at h
      exact ihr rel depth e (fun c' h' => hall c' (List.mem_cons_of_mem _ h')) h
    · rw [if_neg hex] at h
      rcases hd : ingest_dirE counts cfg c (rel ++ [c.name]) (depth + 1) with e' | rs
      · simp only [hd, Except.error.injEq] at h
        subst h
        exact hall c (List.mem_cons_self c rest) (rel ++ [c.name]) (depth + 1) hd
      · simp only [hd] at h
        rcases hrest : ingest_childrenE counts cfg rest rel depth with e'' | rss
        · simp only [hrest, Except.error.injEq] at h
          subst h
          exact ihr rel depth e'' (fun c' h' => hall c' (List.mem_cons_of_mem _ h')) hrest
        · simp only [hrest] at h
          cases h

/-- Any error surfacing from a run came from some ingestion (oracle)
call: the recursion installs no handler and propagates the first
failure. -/
theorem ingest_dirE_error_source
    (counts : List String → List String → Except IngestError Nat) (cfg : Config) :
    ∀ (t : DirTree) (rel : List String) (depth : Nat) (e : IngestError),
      ingest_dirE counts cfg t rel depth = .error e →
      ∃ rel' ex, counts rel' ex = .error e := by
  intro t
  induction t using DirTree.strongInduction with
  | h nm cs ih =>
    intro rel depth e h
    rw [ingest_dirE] at h
    rcases h0 : counts rel cfg.exclude_patterns with e0 | n
    · simp only [h0, Except.error.injEq] at h
      subst h
      exact ⟨rel, cfg.exclude_patterns, h0⟩
    · simp only [h0] at h
      by_cases hk : n ≤ cfg.max_lines ∨ cfg.max_depth ≤ depth
      · rw [if_pos hk] at h
        cases h
      · rw [if_neg hk] at h
        rcases h1 : counts rel (local_excludes cfg (DirTree.node nm cs)) with e1 | m
        · simp only [h1, Except.error.injEq] at h
          subst h
          exact ⟨rel, local_excludes cfg (DirTree.node nm cs), h1⟩
        · simp only [h1] at h
          rcases h2 : ingest_childrenE counts cfg (sortedChildren (DirTree.node nm cs))
              rel depth with e2 | rest
          · simp only [h2, Except.error.injEq] at h
            subst h
            exact ingest_childrenE_error_source counts cfg
              (sortedChildren (DirTree.node nm cs)) rel depth e2
              (fun c hc rel' d' herr => ih c (mem_sortedChildren.mp hc) rel' d' e2 herr) h2
          · simp only [h2] at h
            cases h

/-! ### The claims -/

theorem ingest_children_records_nonempty
    {counts : List String → List String → Nat} {cfg : Config}
    {cs : List DirTree} {rel : List String} {depth : Nat}
    (h : ∃ c ∈ cs, dir_is_excluded c.name cfg.exclude_patterns = false) :
    (ingest_children counts cfg cs rel depth).1 ≠ [] := by
  obtain ⟨c, hc, hex⟩ := h
  obtain ⟨r, hr⟩ := List.exists_mem_of_ne_nil _
    (ingest_dir_records_ne_nil counts cfg c (rel ++ [c.name]) (depth + 1))
  have hmem : r ∈ (ingest_children counts cfg cs rel depth).1 := by
    rw [ingest_children_eq_flatten]
    apply List.mem_flatten.mpr
    refine ⟨(ingest_dir counts cfg c (rel ++ [c.name]) (depth + 1)).1, ?_, hr⟩
    refine List.mem_map.mpr ⟨c, hc, ?_⟩
    rw [if_neg (by simp [hex])]
  exact List.ne_nil_of_mem hmem

/-- C1: for every directory visited, if the whole-directory digest's
measured line count is at most `max_lines`, or the depth has reached
`max_depth`, the temporary digest becomes the directory's final digest
(its filename given by `digest_filename`) and exactly one record is
appended with `split=false`, the current depth and the measured
whole-directory count, with no recursion into children (the call's
entire output is that one record and the single whole-directory
ingestion); and every record produced anywhere at depth `max_depth` has
`split=false` regardless of line count. -/
theorem C1_keep_whole_decision (counts : List String → List String → Nat) (cfg : Config)
    (t : DirTree) (rel : List String) (depth : Nat)
    (h : counts rel cfg.exclude_patterns ≤ cfg.max_lines ∨ cfg.max_depth ≤ depth) :
    ingest_dir counts cfg t rel depth =
      ([⟨relStr rel, digest_filename cfg.root_name rel,
          counts rel cfg.exclude_patterns, depth, false⟩],
       [⟨rel, cfg.exclude_patterns, false⟩]) ∧
    (∀ (t' : DirTree) (rel' : List String) (d' : Nat),
      ∀ r ∈ (ingest_dir counts cfg t' rel' d').1, r.depth = cfg.max_depth →
        r.split = false) := by
  refine ⟨ingest_dir_keep counts cfg t rel depth h, ?_⟩
  intro t' rel' d' r hr hd
  exact (ingest_dir_records_depth counts cfg t' rel' d' r hr).2 (le_of_eq hd.symm)

theorem C1_keep_whole_decision_witness :
    ((5 : Nat) ≤ 10 ∨ (1 : Nat) ≤ 0) ∧
    (ingest_dir (fun _ _ => 5) ⟨"repo", 10, 1, [], [], none, none⟩
        (DirTree.node "repo" []) [] 0 =
      ([⟨".", "digest-repo.txt", 5, 0, false⟩], [⟨[], [], false⟩]) ∧
     (∀ (t' : DirTree) (rel' : List String) (d' : Nat),
        ∀ r ∈ (ingest_dir (fun _ _ => 5) ⟨"repo", 10, 1, [], [], none, none⟩ t' rel' d').1,
          r.depth = 1 → r.split = false)) :=
  ⟨Or.inl (by decide),
   C1_keep_whole_decision (fun _ _ => 5) ⟨"repo", 10, 1, [], [], none, none⟩
     (DirTree.node "repo" []) [] 0 (Or.inl (by decide))⟩

/-- C4: the Pattern Localizer on pattern `"sub/*.md"` and directory
`"sub"` yields `"*.md"`; on `"**/sub/*.md"` and `"sub"` it retains the
original `"**/sub/*.md"` and derives `"*.md"`; and a single-segment
pattern (its `/`-split has one segment) contributes nothing for any
directory name. -/
theorem C4_pattern_localizer :
    ("*.md" ∈ extract_local_patterns ["sub/*.md"] "sub") ∧
    ("**/sub/*.md" ∈ extract_local_patterns ["**/sub/*.md"] "sub") ∧
    ("*.md" ∈ extract_local_patterns ["**/sub/*.md"] "sub") ∧
    (∀ (p d : String), (splitChar '/' p).length = 1 →
      extract_local_patterns [p] d = []) := by
  refine ⟨by decide, by decide, by decide, ?_⟩
  intro p d hlen
  obtain ⟨a, ha⟩ := List.length_eq_one.mp hlen
  unfold extract_local_patterns
  rw [ha]
  simp [local_candidates, extract_local_patterns]

theorem C4_pattern_localizer_witness :
    (splitChar '/' "*.md").length = 1 ∧ extract_local_patterns ["*.md"] "docs" = [] :=
  ⟨by decide, C4_pattern_localizer.2.2.2 "*.md" "docs" (by decide)⟩

/-- C7 counterexample: a digest whose content is a single byte `a` with
no trailing newline has no line-terminated record, yet `count_lines`
returns 1 — the unterminated final fragment is counted as a line. -/
theorem C7_counterexample :
    count_lines [97] = 1 ∧ terminatorCount (utf8Decode [97]) = 0 ∧
    count_lines [97] ≠ terminatorCount (utf8Decode [97]) := by decide

/-- C7 (amended): `count_lines` returns the number of line-terminated
records in the decoded text plus one when the text ends in a nonempty
unterminated fragment; undecodable byte sequences are skipped and never
abort the count (e.g. an invalid `0xFF` byte inside the content leaves
the count unchanged). -/
theorem C7_count_lines_tolerant :
    (∀ (content : List Nat),
      count_lines content =
        terminatorCount (utf8Decode content) +
          (if endsUnterminated (utf8Decode content) = true then 1 else 0)) ∧
    count_lines [97, 255, 98, 10] = count_lines [97, 98, 10] :=
  ⟨fun _ => pyLineCount_eq_terminators _, by decide⟩

/-- C9: the digest filename is `digest-<root>.txt` for the run root
(empty relative path), and `digest-<root>-<seg1>-<seg2>-….txt` — the
segments joined by hyphens — for a directory at relative path
`seg1/seg2/…` (whose segments, being real directory names, are neither
`"."` nor empty). -/
theorem C9_digest_filename_rule (root : String) (segs : List String)
    (hs : ∀ s ∈ segs, s ≠ "." ∧ s ≠ "") :
    digest_filename root [] = "digest-" ++ root ++ ".txt" ∧
    (segs ≠ [] →
      digest_filename root segs =
        "digest-" ++ root ++ "-" ++ joinSep "-" segs ++ ".txt") := by
  constructor
  · rw [digest_filename, if_pos rfl]
  · intro hne
    rw [digest_filename, if_neg hne]
    have hfil : segs.filter (fun p => ¬(p = "." ∨ p = "")) = segs := by
      rw [List.filter_eq_self]
      intro s hsmem
      have := hs s hsmem
      simp [this.1, this.2]
    rw [hfil]

theorem C9_digest_filename_rule_witness :
    (∀ s ∈ (["a", "b"] : List String), s ≠ "." ∧ s ≠ "") ∧
    (digest_filename "myrepo" [] = "digest-" ++ "myrepo" ++ ".txt" ∧
     ((["a", "b"] : List String) ≠ [] →
       digest_filename "myrepo" ["a", "b"] =
         "digest-" ++ "myrepo" ++ "-" ++ joinSep "-" ["a", "b"] ++ ".txt")) :=
  ⟨by decide, C9_digest_filename_rule "myrepo" ["a", "b"] (by decide)⟩

/-- C2 (amended): every visited directory appends exactly one record, in
visiting order (the records' `rel_dir` fields are exactly the sources of
the non-local ingestion calls); the record's `split` flag is true iff the
whole-directory digest exceeded `max_lines` while `depth < max_depth`
(the splitter took the split path).  Recursion into at least one child —
equivalently, the call producing at least two records — implies
`split = true`, and `split = true` guarantees recursion into a child only
when the directory has at least one non-excluded child. -/
theorem C2_one_record_split_flag (counts : List String → List String → Nat)
    (cfg : Config) (t : DirTree) (rel : List String) (depth : Nat) :
    ((ingest_dir counts cfg t rel depth).1.map (fun r => r.rel_dir) =
      (((ingest_dir counts cfg t rel depth).2.filter (fun call => !call.isLocal)).map
        (fun call => relStr call.source_rel))) ∧
    (∀ (r : DigestRecord) (rest : List DigestRecord),
      (ingest_dir counts cfg t rel depth).1 = r :: rest →
      (r.split = true ↔
        (cfg.max_lines < counts rel cfg.exclude_patterns ∧ depth < cfg.max_depth))) ∧
    (2 ≤ (ingest_dir counts cfg t rel depth).1.length →
      ∀ (r : DigestRecord) (rest : List DigestRecord),
        (ingest_dir counts cfg t rel depth).1 = r :: rest → r.split = true) ∧
    ((∃ c ∈ t.children, dir_is_excluded c.name cfg.exclude_patterns = false) →
      ∀ (r : DigestRecord) (rest : List DigestRecord),
        (ingest_dir counts cfg t rel depth).1 = r :: rest → r.split = true →
        2 ≤ (ingest_dir counts cfg t rel depth).1.length) := by
  refine ⟨ingest_dir_records_match_visits counts cfg t rel depth, ?_, ?_, ?_⟩
  · intro r rest hr
    obtain ⟨rest', hh⟩ := ingest_dir_head counts cfg t rel depth
    rw [hr] at hh
    injection hh with h1 h2
    rw [h1]
    by_cases hC : counts rel cfg.exclude_patterns ≤ cfg.max_lines ∨ cfg.max_depth ≤ depth
    · simp [hC]
      omega
    · simp [hC]
      omega
  · intro hlen r rest hr
    by_cases hk : counts rel cfg.exclude_patterns ≤ cfg.max_lines ∨ cfg.max_depth ≤ depth
    · rw [ingest_dir_keep _ _ _ _ _ hk] at hlen
      simp at hlen
    · rw [ingest_dir_split _ _ _ _ _ hk] at hr
      injection hr with h1 _
      rw [← h1]
  · intro hch r rest hr hsplit
    obtain ⟨c, hc, hex⟩ := hch
    by_cases hk : counts rel cfg.exclude_patterns ≤ cfg.max_lines ∨ cfg.max_depth ≤ depth
    · rw [ingest_dir_keep _ _ _ _ _ hk] at hr
      injection hr with h1 _
      rw [← h1] at hsplit
      simp at hsplit
    · rw [ingest_dir_split _ _ _ _ _ hk]
      simp only [List.length_cons]
      have hne : (ingest_children counts cfg (sortedChildren t) rel depth).1 ≠ [] :=
        ingest_children_records_nonempty ⟨c, mem_sortedChildren.mpr hc, hex⟩
      have hpos := List.length_pos.mpr hne
      omega

/-- C2 counterexample: a root directory with no subdirectories whose
whole digest (5 lines) exceeds `max_lines = 1` at `depth 0 <
max_depth 1` gets exactly one record with `split = true`, yet every
ingestion call of the run targets the root — the splitter never recursed
into any child, refuting "split=true iff recursed into at least one
child". -/
theorem C2_counterexample :
    ((ingest_dir (fun _ _ => 5) ⟨"r", 1, 1, [], [], none, none⟩
        (DirTree.node "r" []) [] 0).1 = [⟨".", "digest-r.txt", 5, 0, true⟩]) ∧
    (∀ call ∈ (ingest_dir (fun _ _ => 5) ⟨"r", 1, 1, [], [], none, none⟩
        (DirTree.node "r" []) [] 0).2, call.source_rel = ([] : List String)) := by
  have heval : ingest_dir (fun _ _ => 5) ⟨"r", 1, 1, [], [], none, none⟩
      (DirTree.node "r" []) [] 0 =
      ([⟨".", "digest-r.txt", 5, 0, true⟩], [⟨[], [], false⟩, ⟨[], [], true⟩]) := by
    rw [ingest_dir_split]
    · rw [show sortedChildren (DirTree.node "r" []) = [] from by
        simp [sortedChildren, DirTree.children]]
      rw [ingest_children_nil]
      simp [local_excludes, extract_local_patterns, relStr, digest_filename,
        DirTree.children]
    · decide
  rw [heval]
  refine ⟨rfl, ?_⟩
  intro call hcall
  simp only [List.mem_cons, List.not_mem_nil, or_false] at hcall
  rcases hcall with rfl | rfl
  · rfl
  · rfl

theorem C2_one_record_split_flag_witness :
    ((ingest_dir (fun _ _ => 5) ⟨"repo", 10, 1, [], [], none, none⟩
        (DirTree.node "repo" []) [] 0).1.map (fun r => r.rel_dir) =
      (((ingest_dir (fun _ _ => 5) ⟨"repo", 10, 1, [], [], none, none⟩
          (DirTree.node "repo" []) [] 0).2.filter (fun call => !call.isLocal)).map
        (fun call => relStr call.source_rel))) :=
  (C2_one_record_split_flag (fun _ _ => 5) ⟨"repo", 10, 1, [], [], none, none⟩
    (DirTree.node "repo" []) [] 0).1

/-- C3: when the whole-directory digest exceeds `max_lines` and depth
budget remains, the whole-directory temporary digest is discarded — the
directory's record carries the line count of a second, local-only
ingestion (under `local_excludes`), with `split=true`, whatever that
local-only count is; the trace shows both the discarded whole-directory
call and the local-only call; and every further record of the call sits
strictly deeper, so the local-only digest is never re-split by its own
size. -/
theorem C3_split_uses_local_only_digest (counts : List String → List String → Nat)
    (cfg : Config) (t : DirTree) (rel : List String) (depth : Nat)
    (h1 : cfg.max_lines < counts rel cfg.exclude_patterns)
    (h2 : depth < cfg.max_depth) :
    ((ingest_dir counts cfg t rel depth).1 =
      ⟨relStr rel, digest_filename cfg.root_name rel,
        counts rel (local_excludes cfg t), depth, true⟩
        :: (ingest_children counts cfg (sortedChildren t) rel depth).1) ∧
    ((ingest_dir counts cfg t rel depth).2 =
      ⟨rel, cfg.exclude_patterns, false⟩ :: ⟨rel, local_excludes cfg t, true⟩
        :: (ingest_children counts cfg (sortedChildren t) rel depth).2) ∧
    (∀ r ∈ (ingest_children counts cfg (sortedChildren t) rel depth).1,
      depth + 1 ≤ r.depth) := by
  have hk : ¬(counts rel cfg.exclude_patterns ≤ cfg.max_lines ∨ cfg.max_depth ≤ depth) := by
    omega
  refine ⟨?_, ?_, ?_⟩
  · rw [ingest_dir_split _ _ _ _ _ hk]
  · rw [ingest_dir_split _ _ _ _ _ hk]
  · intro r hr
    obtain ⟨c, hc, _, hrc⟩ := ingest_children_mem_records hr
    exact (ingest_dir_records_depth counts cfg c (rel ++ [c.name]) (depth + 1) r hrc).1

theorem C3_split_uses_local_only_digest_witness :
    ((10 : Nat) < 50 ∧ (0 : Nat) < 2) ∧
    (((ingest_dir (fun rel ex => if rel = [] then (if ex = [] then 50 else 30) else 7)
          ⟨"r", 10, 2, [], [], none, none⟩ (DirTree.node "r" [DirTree.node "a" []]) [] 0).1 =
        ⟨".", "digest-r.txt", 30, 0, true⟩
          :: (ingest_children (fun rel ex => if rel = [] then (if ex = [] then 50 else 30) else 7)
              ⟨"r", 10, 2, [], [], none, none⟩
              (sortedChildren (DirTree.node "r" [DirTree.node "a" []])) [] 0).1) ∧
     ((ingest_dir (fun rel ex => if rel = [] then (if ex = [] then 50 else 30) else 7)
          ⟨"r", 10, 2, [], [], none, none⟩ (DirTree.node "r" [DirTree.node "a" []]) [] 0).2 =
        ⟨[], [], false⟩ :: ⟨[], ["a/**"], true⟩
          :: (ingest_children (fun rel ex => if rel = [] then (if ex = [] then 50 else 30) else 7)
              ⟨"r", 10, 2, [], [], none, none⟩
              (sortedChildren (DirTree.node "r" [DirTree.node "a" []])) [] 0).2) ∧
     (∀ r ∈ (ingest_children (fun rel ex => if rel = [] then (if ex = [] then 50 else 30) else 7)
          ⟨"r", 10, 2, [], [], none, none⟩
          (sortedChildren (DirTree.node "r" [DirTree.node "a" []])) [] 0).1,
        0 + 1 ≤ r.depth)) :=
  ⟨⟨by decide, by decide⟩,
   C3_split_uses_local_only_digest
     (fun rel ex => if rel = [] then (if ex = [] then 50 else 30) else 7)
     ⟨"r", 10, 2, [], [], none, none⟩ (DirTree.node "r" [DirTree.node "a" []]) [] 0
     (by decide) (by decide)⟩

/-- C5: the exclude-pattern list used for a split directory's local-only
digest is exactly the global excludes, then every pattern the Pattern
Localizer derives from the global patterns and this directory's name,
then one synthetic `<child>/**` pattern per immediate child directory. -/
theorem C5_local_only_exclude_set (counts : List String → List String → Nat)
    (cfg : Config) (t : DirTree) (rel : List String) (depth : Nat)
    (h1 : cfg.max_lines < counts rel cfg.exclude_patterns)
    (h2 : depth < cfg.max_depth) :
    ∃ restCalls,
      (ingest_dir counts cfg t rel depth).2 =
        ⟨rel, cfg.exclude_patterns, false⟩ ::
        ⟨rel, cfg.exclude_patterns
            ++ extract_local_patterns cfg.exclude_patterns t.name
            ++ t.children.map (fun c => c.name ++ "/**"), true⟩ :: restCalls := by
  have hk : ¬(counts rel cfg.exclude_patterns ≤ cfg.max_lines ∨ cfg.max_depth ≤ depth) := by
    omega
  refine ⟨(ingest_children counts cfg (sortedChildren t) rel depth).2, ?_⟩
  rw [ingest_dir_split _ _ _ _ _ hk]
  rfl

theorem C5_local_only_exclude_set_witness :
    ((10 : Nat) < 100 ∧ (0 : Nat) < 1) ∧
    (∃ restCalls,
      (ingest_dir (fun _ _ => 100) ⟨"sub", 10, 1, ["sub/*.md"], [], none, none⟩
          (DirTree.node "sub" [DirTree.node "b" [], DirTree.node "a" []]) [] 0).2 =
        ⟨[], ["sub/*.md"], false⟩ ::
        ⟨[], ["sub/*.md"]
            ++ extract_local_patterns ["sub/*.md"] "sub"
            ++ ["b/**", "a/**"], true⟩ :: restCalls) :=
  ⟨⟨by decide, by decide⟩,
   C5_local_only_exclude_set (fun _ _ => 100) ⟨"sub", 10, 1, ["sub/*.md"], [], none, none⟩
     (DirTree.node "sub" [DirTree.node "b" [], DirTree.node "a" []]) [] 0
     (by decide) (by decide)⟩

instance : IsTotal DirTree (fun a b => a.name ≤ b.name) :=
  ⟨fun a b => le_total a.name b.name⟩

instance : IsTrans DirTree (fun a b => a.name ≤ b.name) :=
  ⟨fun _ _ _ hab hbc => le_trans hab hbc⟩

/-- C6: when a directory is split, its records (beyond its own) and its
trace (beyond the whole-directory and local-only calls) come from its
immediate children taken in name-sorted order (`sortedChildren t` is a
sorted permutation of the children), each non-excluded child visited at
`depth + 1` with the same configuration `cfg` and the same oracle, and
an excluded child contributing nothing at all — no records, no calls;
and a child is excluded exactly when its bare name, or its name with a
trailing `/`, glob-matches some global exclude pattern. -/
theorem C6_sorted_recursion_and_exclusion (counts : List String → List String → Nat)
    (cfg : Config) (t : DirTree) (rel : List String) (depth : Nat)
    (h1 : cfg.max_lines < counts rel cfg.exclude_patterns)
    (h2 : depth < cfg.max_depth) :
    ((ingest_dir counts cfg t rel depth).1.tail =
      ((sortedChildren t).map (fun c =>
        if dir_is_excluded c.name cfg.exclude_patterns = true then []
        else (ingest_dir counts cfg c (rel ++ [c.name]) (depth + 1)).1)).flatten) ∧
    ((ingest_dir counts cfg t rel depth).2.drop 2 =
      ((sortedChildren t).map (fun c =>
        if dir_is_excluded c.name cfg.exclude_patterns = true then []
        else (ingest_dir counts cfg c (rel ++ [c.name]) (depth + 1)).2)).flatten) ∧
    List.Sorted (fun a b : DirTree => a.name ≤ b.name) (sortedChildren t) ∧
    (sortedChildren t).Perm t.children ∧
    (∀ (nm : String) (pats : List String),
      dir_is_excluded nm pats = true ↔
        ∃ pat ∈ pats, fnmatch nm pat = true ∨ fnmatch (nm ++ "/") pat = true) := by
  have hk : ¬(counts rel cfg.exclude_patterns ≤ cfg.max_lines ∨ cfg.max_depth ≤ depth) := by
    omega
  refine ⟨?_, ?_, ?_, ?_, ?_⟩
  · rw [ingest_dir_split _ _ _ _ _ hk, ingest_children_eq_flatten]
    rfl
  · rw [ingest_dir_split _ _ _ _ _ hk, ingest_children_eq_flatten]
    rfl
  · exact List.sorted_insertionSort _ _
  · exact List.perm_insertionSort _ _
  · intro nm pats
    simp [dir_is_excluded, List.any_eq_true, Bool.or_eq_true]

theorem C6_sorted_recursion_and_exclusion_witness :
    ((10 : Nat) < 100 ∧ (0 : Nat) < 1) ∧
    (((ingest_dir (fun rel _ => if rel = [] then 100 else 5)
          ⟨"r", 10, 1, ["node_modules"], [], none, none⟩
          (DirTree.node "r" [DirTree.node "node_modules" [], DirTree.node "a" []]) [] 0).1.tail =
        ((sortedChildren (DirTree.node "r" [DirTree.node "node_modules" [], DirTree.node "a" []])).map
          (fun c => if dir_is_excluded c.name ["node_modules"] = true then []
            else (ingest_dir (fun rel _ => if rel = [] then 100 else 5)
              ⟨"r", 10, 1, ["node_modules"], [], none, none⟩ c ([] ++ [c.name]) (0 + 1)).1)).flatten) ∧
     ((ingest_dir (fun rel _ => if rel = [] then 100 else 5)
          ⟨"r", 10, 1, ["node_modules"], [], none, none⟩
          (DirTree.node "r" [DirTree.node "node_modules" [], DirTree.node "a" []]) [] 0).2.drop 2 =
        ((sortedChildren (DirTree.node "r" [DirTree.node "node_modules" [], DirTree.node "a" []])).map
          (fun c => if dir_is_excluded c.name ["node_modules"] = true then []
            else (ingest_dir (fun rel _ => if rel = [] then 100 else 5)
              ⟨"r", 10, 1, ["node_modules"], [], none, none⟩ c ([] ++ [c.name]) (0 + 1)).2)).flatten) ∧
     List.Sorted (fun a b : DirTree => a.name ≤ b.name)
       (sortedChildren (DirTree.node "r" [DirTree.node "node_modules" [], DirTree.node "a" []])) ∧
     (sortedChildren (DirTree.node "r" [DirTree.node "node_modules" [], DirTree.node "a" []])).Perm
       (DirTree.node "r" [DirTree.node "node_modules" [], DirTree.node "a" []]).children ∧
     (∀ (nm : String) (pats : List String),
       dir_is_excluded nm pats = true ↔
         ∃ pat ∈ pats, fnmatch nm pat = true ∨ fnmatch (nm ++ "/") pat = true)) :=
  ⟨⟨by decide, by decide⟩,
   C6_sorted_recursion_and_exclusion (fun rel _ => if rel = [] then 100 else 5)
     ⟨"r", 10, 1, ["node_modules"], [], none, none⟩
     (DirTree.node "r" [DirTree.node "node_modules" [], DirTree.node "a" []]) [] 0
     (by decide) (by decide)⟩

/-- C8: if any ingestion call of a run fails, `main` aborts with a
non-zero exit code and the index file is not written — no partial index
for the work completed so far — and the two failure kinds remain
distinguishable: a missing executable is reported with install guidance
and exit code 1, while a failing tool exit is reported with its surfaced
status and exits with that status (which `subprocess.run(check=True)`
guarantees non-zero, here a hypothesis on the oracle). -/
theorem C8_ingestion_failure_aborts (counts : List String → List String → Except IngestError Nat)
    (cfg : Config) (t : DirTree) (e : IngestError)
    (hrc : ∀ (rel ex : List String) (rc : Int),
      counts rel ex = .error (.calledProcess rc) → rc ≠ 0)
    (herr : ingest_dirE counts cfg t [] 0 = .error e) :
    (mainModel counts cfg t).indexWritten = false ∧
    (∃ c, (mainModel counts cfg t).exitCode = some c ∧ c ≠ 0) ∧
    (e = .fileNotFound → (mainModel counts cfg t).report = some .installHint) ∧
    (∀ rc : Int, e = .calledProcess rc →
      (mainModel counts cfg t).report = some (.gitingestError rc)) ∧
    (∀ rc : Int, RunReport.installHint ≠ RunReport.gitingestError rc) := by
  cases e with
  | fileNotFound =>
    have hm : mainModel counts cfg t = ⟨some 1, false, some .installHint⟩ := by
      unfold mainModel
      rw [herr]
    rw [hm]
    refine ⟨rfl, ⟨1, rfl, by decide⟩, fun _ => rfl, ?_, ?_⟩
    · intro rc hrc'
      cases hrc'
    · intro rc h
      cases h
  | calledProcess rc =>
    have hm : mainModel counts cfg t = ⟨some rc, false, some (.gitingestError rc)⟩ := by
      unfold mainModel
      rw [herr]
    obtain ⟨rel', ex, horacle⟩ := ingest_dirE_error_source counts cfg t [] 0 _ herr
    have hrc0 : rc ≠ 0 := hrc rel' ex rc horacle
    rw [hm]
    refine ⟨rfl, ⟨rc, rfl, hrc0⟩, ?_, ?_, ?_⟩
    · intro h
      cases h
    · intro rc' h
      injection h with h
      rw [← h]
    · intro rc' h
      cases h

theorem C8_ingestion_failure_aborts_witness :
    (∀ (rel ex : List String) (rc : Int),
      (fun (_ : List String) (_ : List String) =>
          (Except.error (IngestError.calledProcess 2) : Except IngestError Nat)) rel ex =
        .error (.calledProcess rc) → rc ≠ 0) ∧
    (ingest_dirE (fun _ _ => .error (.calledProcess 2))
        ⟨"r", 10, 1, [], [], none, none⟩ (DirTree.node "r" []) [] 0 =
      .error (.calledProcess 2)) ∧
    ((mainModel (fun _ _ => .error (.calledProcess 2))
        ⟨"r", 10, 1, [], [], none, none⟩ (DirTree.node "r" [])).indexWritten = false ∧
     (∃ c, (mainModel (fun _ _ => .error (.calledProcess 2))
        ⟨"r", 10, 1, [], [], none, none⟩ (DirTree.node "r" [])).exitCode = some c ∧ c ≠ 0) ∧
     ((IngestError.calledProcess 2 : IngestError) = .fileNotFound →
       (mainModel (fun _ _ => .error (.calledProcess 2))
          ⟨"r", 10, 1, [], [], none, none⟩ (DirTree.node "r" [])).report =
         some .installHint) ∧
     (∀ rc : Int, (IngestError.calledProcess 2 : IngestError) = .calledProcess rc →
       (mainModel (fun _ _ => .error (.calledProcess 2))
          ⟨"r", 10, 1, [], [], none, none⟩ (DirTree.node "r" [])).report =
         some (.gitingestError rc)) ∧
     (∀ rc : Int, RunReport.installHint ≠ RunReport.gitingestError rc)) := by
  have hrc : ∀ (rel ex : List String) (rc : Int),
      (fun (_ : List String) (_ : List String) =>
          (Except.error (IngestError.calledProcess 2) : Except IngestError Nat)) rel ex =
        .error (.calledProcess rc) → rc ≠ 0 := by
    intro rel ex rc h
    simp only [Except.error.injEq, IngestError.calledProcess.injEq] at h
    omega
  have herr : ingest_dirE (fun _ _ => .error (.calledProcess 2))
      ⟨"r", 10, 1, [], [], none, none⟩ (DirTree.node "r" []) [] 0 =
      .error (.calledProcess 2) :=
    ingest_dirE_oracle_error _ _ _ _ _ _ rfl
  exact ⟨hrc, herr,
    C8_ingestion_failure_aborts (fun _ _ => .error (.calledProcess 2))
      ⟨"r", 10, 1, [], [], none, none⟩ (DirTree.node "r" []) (.calledProcess 2) hrc herr⟩

/-- C10: `digest_filename` is not injective in the relative directory:
the distinct relative paths `a/b` and `a-b` (same root) map to the same
digest filename, so one digest can overwrite the other within a run. -/
theorem C10_digest_filename_not_injective :
    digest_filename "myrepo" ["a", "b"] = digest_filename "myrepo" ["a-b"] ∧
    (["a", "b"] : List String) ≠ ["a-b"] ∧
    relStr ["a", "b"] ≠ relStr ["a-b"] := by decide

end GitingestSplitter
